import Mathlib

/-
Verification of the font-deobfuscation crawler.

Shallow embedding of two Python modules:
  * parse_woff_font.py   — glyph rasterizer (convert_cmap_to_image, memoized by
    functools.lru_cache with maxsize 128), batch extractor (extract_text_from_font),
    and the webpage decoder of decrypt_webpage_example;
  * the crawler module    — the decryption helpers change_price and change_sub_title.

External effects (filesystem, PIL rendering, fontTools parsing, the OCR engine)
are modelled by an explicit environment of oracles; bitmaps are modelled by the
constructor tree that produced them (rendering is deterministic for a fixed
environment, so the constructor tree determines pixel content); Python strings
that the pure decoders manipulate are modelled as List Char.
-/

set_option maxRecDepth 8000

namespace FontCrawl

/-- Exceptions that convert_cmap_to_image can raise:
FileNotFoundError (missing font path, or PIL save into the missing ./imgs
directory) and ValueError (negative codepoint, font load failure, chr overflow). -/
inductive PyErr where
  | fileNotFound
  | valueError
deriving DecidableEq

/-- Exceptions that extract_text_from_font can raise before its loop starts:
FileNotFoundError on the font path (line 124), OSError from os.makedirs
(line 129), ValueError from TTFont/getBestCmap (line 137), and a failure while
constructing the ddddocr.DdddOcr engine (line 140). -/
inductive XErr where
  | fontNotFound
  | osError
  | parseError
  | ocrInitError
deriving DecidableEq

/-- Result of temp_img.getbbox() when it is not None: pixel coordinates
(left, top, right, bottom), right and bottom exclusive. -/
structure BBox where
  left : Nat
  top : Nat
  right : Nat
  bottom : Nat
deriving DecidableEq

/-- padding = img_size // 10 (line 71). -/
def cropPadding (img_size : Nat) : Nat := img_size / 10

/-- half_size = max(width, height) // 2 + padding (line 81). -/
def cropHalfSize (img_size : Nat) (b : BBox) : Nat :=
  max (b.right - b.left) (b.bottom - b.top) / 2 + cropPadding img_size

/-- center_x = (left + right) // 2 (line 77). -/
def bboxCenterX (b : BBox) : Nat := (b.left + b.right) / 2

/-- center_y = (top + bottom) // 2 (line 78). -/
def bboxCenterY (b : BBox) : Nat := (b.top + b.bottom) / 2

/-- The crop rectangle of lines 82-85.  Python computes max(0, center - half)
and min(temp_size, center + half) over ints; on these nonnegative inputs
max(0, a - b) coincides with truncated Nat subtraction, so the whole
computation is carried out in Nat. -/
def cropRegion (img_size : Nat) (b : BBox) : Nat × Nat × Nat × Nat :=
  (bboxCenterX b - cropHalfSize img_size b,
   bboxCenterY b - cropHalfSize img_size b,
   min (2 * img_size) (bboxCenterX b + cropHalfSize img_size b),
   min (2 * img_size) (bboxCenterY b + cropHalfSize img_size b))

/-- A PIL image, identified by the constructor tree that produced it.
canvas is the oversized 2*img_size monochrome canvas with chr(code) drawn at
its center (lines 46-65); cropped and resized record the crop rectangle and
the LANCZOS resample target of lines 88-91; blank is Image.new of lines 47
and 94. -/
inductive Img where
  | blank (w h : Nat)
  | canvas (code : Int) (font_path : String) (img_size : Nat)
  | cropped (src : Img) (region : Nat × Nat × Nat × Nat)
  | resized (src : Img) (w h : Nat)
deriving DecidableEq

/-- Pixel width of an image. PIL crop yields width right - left; resize yields
the requested width. -/
def Img.width : Img → Nat
  | .blank w _ => w
  | .canvas _ _ s => 2 * s
  | .cropped _ (l, _, r, _) => r - l
  | .resized _ w _ => w

/-- Pixel height of an image. -/
def Img.height : Img → Nat
  | .blank _ h => h
  | .canvas _ _ s => 2 * s
  | .cropped _ (_, t, _, b) => b - t
  | .resized _ _ h => h

/-- Paths written by the module.  The two writing sites use disjoint filename
shapes — f"./imgs/{code}.png" (digits only before .png) versus
os.path.join(cache_dir, f"{ord}_{glyph}.png") (an underscore after the ord
digits) — so they are modelled by distinct constructors; file reads of other
paths (the font file) use the raw constructor. -/
inductive FPath where
  | raw (s : String)
  | imgsOut (code : Int)
  | cacheFile (dir : String) (code : Nat) (glyph : String)
deriving DecidableEq

/-- Filesystem state: the fixed set of files present before the call, plus the
files written during the call (most recent first). -/
structure FS where
  base : FPath → Bool
  written : List (FPath × Img)

/-- os.path.exists on a file path. -/
def FS.check (fs : FS) (p : FPath) : Bool :=
  fs.written.any (fun q => q.1 == p) || fs.base p

/-- image.save(path): creates or overwrites the file at path. -/
def FS.write (fs : FS) (p : FPath) (img : Img) : FS :=
  ⟨fs.base, (p, img) :: fs.written⟩

/-- Current content of a file written during the call. -/
def FS.get (fs : FS) (p : FPath) : Option Img :=
  (fs.written.find? (fun q => q.1 == p)).map (fun q => q.2)

/-- Oracles for the external world, fixed for the duration of a run:
os.path.exists on raw paths, existence of the hard-coded ./imgs directory,
success of ImageFont.truetype, the bounding box that temp_img.getbbox()
reports after drawing chr(code), TTFont(path).getBestCmap() (none when
parsing raises), success of os.makedirs, success of the ddddocr.DdddOcr
constructor, success of image.save into the cache directory, and
ocr.classification (none when the OCR call raises). -/
structure Env where
  pathExists : String → Bool
  imgsDirExists : Bool
  loadOk : String → Nat → Bool
  bbox : Int → String → Nat → Option BBox
  parseFont : String → Option (List (Nat × String))
  dirMakeOk : String → Bool
  ocrInitOk : Bool
  cacheWriteOk : String → Nat → String → Bool
  ocrText : Img → Option String

/-- One uncached execution of the body of convert_cmap_to_image (lines 39-97),
up to but excluding its filesystem write: the guards of lines 39-43, the font
load of line 51, chr(cmap_code) of line 56 (ValueError above 0x10FFFF), the
bounding-box branch of lines 68-94, and the save of line 96 which raises
FileNotFoundError when the ./imgs directory is missing.  The produced bitmap
depends only on the environment and the arguments. -/
def convertUncached (env : Env) (cmap_code : Int) (font_path : String) (img_size : Nat) :
    Except PyErr Img :=
  if env.pathExists font_path = false then .error .fileNotFound
  else if cmap_code < 0 then .error .valueError
  else if env.loadOk font_path img_size = false then .error .valueError
  else if 0x10FFFF < cmap_code then .error .valueError
  else
    let final_img :=
      match env.bbox cmap_code font_path img_size with
      | some b =>
          Img.resized (Img.cropped (Img.canvas cmap_code font_path img_size)
            (cropRegion img_size b)) img_size img_size
      | none => Img.blank img_size img_size
    if env.imgsDirExists = false then .error .fileNotFound
    else .ok final_img

/-- Memoization key of functools.lru_cache: the argument triple. -/
abbrev CKey := Int × String × Nat

/-- Lookup in the memoization table. -/
def lruLookup (l : List (CKey × Img)) (k : CKey) : Option Img :=
  (l.find? (fun e => e.1 == k)).map (fun e => e.2)

/-- A cache hit moves the entry to the most-recently-used position. -/
def lruTouch (l : List (CKey × Img)) (k : CKey) : List (CKey × Img) :=
  match l.find? (fun e => e.1 == k) with
  | some e => e :: l.filter (fun q => !(q.1 == k))
  | none => l

/-- A cache miss inserts at the most-recently-used position and evicts the
least-recently-used entry once the table exceeds maxsize=128 (line 22). -/
def lruInsert (l : List (CKey × Img)) (k : CKey) (v : Img) : List (CKey × Img) :=
  ((k, v) :: l).take 128

/-- Process state threaded through calls: the lru_cache table and the
filesystem. -/
structure CState where
  lru : List (CKey × Img)
  fs : FS

/-- Outcome of one call of the memoized convert_cmap_to_image: the returned
value or exception, the successor state, and whether the body ran (false on a
memoization hit). -/
structure CallOut where
  result : Except PyErr Img
  state : CState
  recomputed : Bool

/-- The memoized convert_cmap_to_image (lines 22-97).  A hit returns the
cached bitmap without running the body and without touching the filesystem; a
miss runs the body, and on success stores the result and performs the
unconditional save to ./imgs/{cmap_code}.png of line 96.  lru_cache does not
cache exceptions. -/
def convert_cmap_to_image (env : Env) (st : CState) (cmap_code : Int) (font_path : String)
    (img_size : Nat) : CallOut :=
  match lruLookup st.lru (cmap_code, font_path, img_size) with
  | some img => ⟨.ok img, ⟨lruTouch st.lru (cmap_code, font_path, img_size), st.fs⟩, false⟩
  | none =>
      match convertUncached env cmap_code font_path img_size with
      | .error e => ⟨.error e, st, true⟩
      | .ok img =>
          ⟨.ok img,
           ⟨lruInsert st.lru (cmap_code, font_path, img_size) img,
            st.fs.write (.imgsOut cmap_code) img⟩,
           true⟩

/-- A sequence of calls of convert_cmap_to_image, threading the state. -/
def runCalls (env : Env) : CState → List CKey → CState
  | st, [] => st
  | st, k :: ks => runCalls env (convert_cmap_to_image env st k.1 k.2.1 k.2.2).state ks

/-- Coherence of the memoization table: every cached bitmap is the one the
body computes for its key.  This holds of every table produced by actual
calls, since entries are only inserted on successful computation and the body
is deterministic in the environment. -/
def LRUvalid (env : Env) (l : List (CKey × Img)) : Prop :=
  ∀ k img, (k, img) ∈ l → convertUncached env k.1 k.2.1 k.2.2 = .ok img

/-- Python dict assignment d[k] = v: replaces in place when the key is
present, appends otherwise (insertion order preserved). -/
def dinsert (d : List (String × String)) (k v : String) : List (String × String) :=
  if d.any (fun e => e.1 == k) then d.map (fun e => if e.1 == k then (k, v) else e)
  else d ++ [(k, v)]

/-- Python dict lookup d[k]. -/
def dlookup (d : List (String × String)) (k : String) : Option String :=
  (d.find? (fun e => e.1 == k)).map (fun e => e.2)

/-- The classification step of lines 161-163: serialize to PNG bytes in
memory and call ocr.classification; a raised exception is caught by the
enclosing handler and yields the empty string. -/
def classifyStep (env : Env) (image : Img) (st : CState) : String × String × CState :=
  match env.ocrText image with
  | some t => (t, t, st)
  | none => ("", "", st)

/-- The body of one loop iteration of extract_text_from_font (lines 149-170),
entirely wrapped in try/except: render via the memoized
convert_cmap_to_image; if a cache directory is configured, compute
chr(cmap_code) (ValueError above 0x10FFFF) and save the bitmap to
os.path.join(cache_dir, f"(ord)_(glyph).png") only when no file of that name
exists; then classify.  Every failure is caught and produces the empty
string; state changes made before the failure are kept. -/
def entryText (env : Env) (font_path : String) (image_size : Nat) (cache_dir : Option String)
    (st : CState) (cmap_code : Nat) (glyph_name : String) : String × CState :=
  match convert_cmap_to_image env st (cmap_code : Int) font_path image_size with
  | ⟨.error _, st1, _⟩ => ("", st1)
  | ⟨.ok image, st1, _⟩ =>
      match cache_dir with
      | none =>
          match env.ocrText image with
          | some t => (t, st1)
          | none => ("", st1)
      | some d =>
          if 0x10FFFF < cmap_code then ("", st1)
          else
            let p := FPath.cacheFile d cmap_code glyph_name
            if st1.fs.check p then
              match env.ocrText image with
              | some t => (t, st1)
              | none => ("", st1)
            else if env.cacheWriteOk d cmap_code glyph_name then
              let st2 : CState := ⟨st1.lru, st1.fs.write p image⟩
              match env.ocrText image with
              | some t => (t, st2)
              | none => ("", st2)
            else ("", st1)

/-- The iteration of lines 145-170 over the character map, accumulating the
font_map dict.  Progress logging (lines 146-147) is observability only and is
not modelled. -/
def extractLoop (env : Env) (font_path : String) (image_size : Nat)
    (cache_dir : Option String) :
    List (Nat × String) → CState → List (String × String) → CState × List (String × String)
  | [], st, d => (st, d)
  | (c, g) :: rest, st, d =>
      let r := entryText env font_path image_size cache_dir st c g
      extractLoop env font_path image_size cache_dir rest r.2 (dinsert d g r.1)

/-- The cache-directory creation of lines 128-129: skipped when no directory
is configured or it already exists; otherwise os.makedirs, whose failure
propagates. -/
def mkdirPhaseOk (env : Env) (cache_dir : Option String) : Bool :=
  match cache_dir with
  | none => true
  | some d => env.pathExists d || env.dirMakeOk d

/-- extract_text_from_font (lines 100-175).  In source order: the existence
check of line 124 (FileNotFoundError), cache-directory creation (lines
128-129), TTFont and getBestCmap wrapped into ValueError (lines 131-137),
DdddOcr construction (line 140), then the per-entry loop.  The parameters
show_progress and use_cache only affect logging — use_cache is never read by
the body — and are omitted. -/
def extract_text_from_font (env : Env) (st : CState) (font_path : String) (image_size : Nat)
    (cache_dir : Option String) : Except XErr (List (String × String) × CState) :=
  if env.pathExists font_path = false then .error .fontNotFound
  else if mkdirPhaseOk env cache_dir = false then .error .osError
  else
    match env.parseFont font_path with
    | none => .error .parseError
    | some cmap =>
        if env.ocrInitOk = false then .error .ocrInitError
        else
          let r := extractLoop env font_path image_size cache_dir cmap st []
          .ok (r.2, r.1)

/-- Python s.split onto the separator ";" (line 265), over List Char:
an empty input yields one empty field, separators delimit fields. -/
def splitSemi : List Char → List (List Char)
  | [] => [[]]
  | c :: rest =>
      let r := splitSemi rest
      if c = ';' then [] :: r
      else (c :: r.headI) :: r.tail

/-- Python part.replace of the substring "&#x" by the empty string (line
270): left-to-right removal of every occurrence. -/
def stripAmpHashX : List Char → List Char
  | '&' :: '#' :: 'x' :: rest => stripAmpHashX rest
  | c :: rest => c :: stripAmpHashX rest
  | [] => []

/-- Python hex_code.upper() restricted to the characters the decoder meets
(ASCII), over List Char. -/
def upperChars (s : List Char) : List Char := s.map Char.toUpper

/-- unicode_name = f"uni" followed by hex_code.upper() (line 275). -/
def uniKey (hex_code : List Char) : List Char := 'u' :: 'n' :: 'i' :: upperChars hex_code

/-- Dict membership test and lookup over List Char keys. -/
def lookupC (m : List (List Char × List Char)) (k : List Char) : Option (List Char) :=
  (m.find? (fun e => e.1 == k)).map (fun e => e.2)

/-- One iteration of the decoding loop of lines 265-279: skip an empty part,
strip "&#x", skip an empty hex code, then substitute the mapped text for
uni(HEX) or the fallback "?". -/
def decodeStep (font_map : List (List Char × List Char)) (acc part : List Char) : List Char :=
  if part = [] then acc
  else
    let hex_code := stripAmpHashX part
    if hex_code = [] then acc
    else
      match lookupC font_map (uniKey hex_code) with
      | some t => acc ++ t
      | none => acc ++ ['?']

/-- The full decoding loop of decrypt_webpage_example (lines 264-279). -/
def decodeEncrypted (font_map : List (List Char × List Char)) (encrypted_text : List Char) :
    List Char :=
  (splitSemi encrypted_text).foldl (decodeStep font_map) []

/-- The substitution a single well-formed token receives: the mapped text of
key uni(HEX) when present, otherwise the fallback "?". -/
def decodeToken (font_map : List (List Char × List Char)) (h : List Char) : List Char :=
  match lookupC font_map (uniKey h) with
  | some t => t
  | none => ['?']

/-- An encrypted text made of tokens of the form "&#x" hex ";". -/
def encTokens : List (List Char) → List Char
  | [] => []
  | h :: t => '&' :: '#' :: 'x' :: (h ++ ';' :: encTokens t)

/-- The hexadecimal digit characters. -/
def isHexChar (c : Char) : Bool :=
  c.isDigit || ('a' ≤ c && c ≤ 'f') || ('A' ≤ c && c ≤ 'F')

/-- Concatenation of a list of character lists. -/
def concatAll (l : List (List Char)) : List Char := l.foldr (· ++ ·) []

/-- change_price of the crawler module (lines 32-50): copy "." unchanged and
replace every other character by data_mapping[item]; a missing key raises
KeyError, modelled by none. -/
def change_price (original_price : List Char) (data_mapping : Char → Option (List Char)) :
    Option (List Char) :=
  match original_price with
  | [] => some []
  | item :: rest =>
      if item = '.' then (change_price rest data_mapping).map (fun r => '.' :: r)
      else
        match data_mapping item with
        | none => none
        | some v => (change_price rest data_mapping).map (fun r => v ++ r)

/-- change_sub_title of the crawler module (lines 53-71): copy ".", "|" and
" " unchanged and replace every other character by data_mapping[i]; a missing
key raises KeyError, modelled by none. -/
def change_sub_title (original_sub_title : List Char) (data_mapping : Char → Option (List Char)) :
    Option (List Char) :=
  match original_sub_title with
  | [] => some []
  | i :: rest =>
      if i = '.' ∨ i = '|' ∨ i = ' ' then
        (change_sub_title rest data_mapping).map (fun r => i :: r)
      else
        match data_mapping i with
        | none => none
        | some v => (change_sub_title rest data_mapping).map (fun r => v ++ r)

/-- Distance on Nat, for the one-pixel tolerance of the crop-centering
property. -/
def natDist (a b : Nat) : Nat := max (a - b) (b - a)

/-! Concrete fixtures used by witnesses and counterexamples. -/

/-- A filesystem with no pre-existing files. -/
def emptyFS : FS := ⟨fun _ => false, []⟩

/-- Fresh process state: empty memoization table, empty filesystem. -/
def st0 : CState := ⟨[], emptyFS⟩

/-- A fully healthy environment: every path exists, the ./imgs directory is
present, fonts load, every glyph renders blank, the font parses to the single
entry (0xE001, uniE001) of the spec example, and the classifier reads 7. -/
def envOk : Env :=
  ⟨fun _ => true, true, fun _ _ => true, fun _ _ _ => none,
   fun _ => some [(57345, "uniE001")], fun _ => true, true,
   fun _ _ _ => true, fun _ => some "7"⟩

/-- Like envOk but the hard-coded ./imgs output directory is missing, so the
save of line 96 raises FileNotFoundError. -/
def env3 : Env :=
  ⟨fun _ => true, false, fun _ _ => true, fun _ _ _ => none,
   fun _ => some [(57345, "uniE001")], fun _ => true, true,
   fun _ _ _ => true, fun _ => some "7"⟩

/-- An environment where the font file exists and parses but the configured
cache directory is absent and os.makedirs fails: only the font path f exists. -/
def envOsErr : Env :=
  ⟨fun s => s == "f", true, fun _ _ => true, fun _ _ _ => none,
   fun _ => some [(57345, "uniE001")], fun _ => false, true,
   fun _ _ _ => true, fun _ => some "7"⟩

/-- The bounding box 8..12 x 8..12 on the 20x20 canvas of img_size 10: its
padded crop square needs no clamping. -/
def b6w : BBox := ⟨8, 8, 12, 12⟩

/-- The bounding box 0..2 x 0..2 hugging the canvas corner: clamping shifts
the crop center away from the box center. -/
def b6c : BBox := ⟨0, 0, 2, 2⟩

/-- A one-key character mapping for the crawler helpers: the obfuscated digit
1 decodes to 9. -/
def dmw : Char → Option (List Char) := fun c => if c = '1' then some ['9'] else none

/-- A healthy environment for exercising the memoization table alone. -/
def env5 : Env :=
  ⟨fun _ => true, true, fun _ _ => true, fun _ _ _ => none,
   fun _ => none, fun _ => true, true, fun _ _ _ => true, fun _ => some ""⟩

/-- 129 calls with pairwise distinct keys: the first key (0, "", 0) followed
by 128 fresh ones, enough to evict the first entry from the capacity-128
table. -/
def calls5 : List CKey := (List.range 129).map (fun i => ((i : Int), "", 0))

/-- The glyph mapping of the spec example, over List Char. -/
def exampleMap : List (List Char × List Char) :=
  [("uniE78C".toList, "3".toList), ("uniE562".toList, "5".toList)]

/-- Like envOk but the OCR engine fails to initialize. -/
def envNoOcr : Env :=
  ⟨fun _ => true, true, fun _ _ => true, fun _ _ _ => none,
   fun _ => some [(57345, "uniE001")], fun _ => true, false,
   fun _ _ _ => true, fun _ => some "7"⟩

/-- The final state of the one-entry extraction of envOk from st0 without a
cache directory: the rendered blank cached under its key, the ./imgs save on
disk. -/
def wStF : CState :=
  ⟨[((57345, "f", 4), Img.blank 4 4)],
   ⟨emptyFS.base, [(FPath.imgsOut 57345, Img.blank 4 4)]⟩⟩

/-- Base filesystem holding exactly the one pre-existing cache file of the
envOk extraction. -/
def wBase8 : FPath → Bool := fun p => p == FPath.cacheFile "cd" 57345 "uniE001"

/-- Fresh state over wBase8. -/
def wSt8 : CState := ⟨[], ⟨wBase8, []⟩⟩

/-- The final state of the one-entry extraction of envOk from wSt8 with cache
directory cd: the pre-existing cache file is untouched, only ./imgs written. -/
def wStF8 : CState :=
  ⟨[((57345, "f", 4), Img.blank 4 4)],
   ⟨wBase8, [(FPath.imgsOut 57345, Img.blank 4 4)]⟩⟩

/-! Helper lemmas about the memoization table. -/

theorem LRUvalid_nil (env : Env) : LRUvalid env [] :=
  fun _ _ hm => absurd hm (List.not_mem_nil _)

theorem lruLookup_mem (l : List (CKey × Img)) (k : CKey) (v : Img)
    (h : lruLookup l k = some v) : (k, v) ∈ l := by
  cases hf : l.find? (fun e => e.1 == k) with
  | none => simp [lruLookup, hf] at h
  | some e =>
      have hm := List.mem_of_find?_eq_some hf
      have hp : e.1 = k := by simpa using List.find?_some hf
      have hv2 : e.2 = v := by simpa [lruLookup, hf] using h
      cases e with
      | mk a b =>
          cases hp
          cases hv2
          exact hm

theorem convert_ok_val (env : Env) (st : CState) (code : Int) (fp : String) (size : Nat)
    (img : Img) (hv : LRUvalid env st.lru)
    (h : (convert_cmap_to_image env st code fp size).result = .ok img) :
    convertUncached env code fp size = .ok img := by
  unfold convert_cmap_to_image at h
  cases hl : lruLookup st.lru (code, fp, size) with
  | some v =>
      rw [hl] at h
      simp only [Except.ok.injEq] at h
      cases h
      exact hv _ _ (lruLookup_mem _ _ _ hl)
  | none =>
      rw [hl] at h
      cases hc : convertUncached env code fp size with
      | error e => rw [hc] at h; simp at h
      | ok i =>
          rw [hc] at h
          simp only [Except.ok.injEq] at h
          rw [h]

/-- C4: for every call of convert_cmap_to_image that succeeds, the returned
bitmap is exactly img_size by img_size, in both the cropped-and-resampled
branch and the blank-glyph branch.  The coherence hypothesis on the
memoization table holds of every table built by actual calls. -/
theorem convert_output_dimensions (env : Env) (st : CState) (code : Int) (fp : String)
    (size : Nat) (img : Img) (hv : LRUvalid env st.lru)
    (h : (convert_cmap_to_image env st code fp size).result = .ok img) :
    img.width = size ∧ img.height = size := by
  have hc := convert_ok_val env st code fp size img hv h
  unfold convertUncached at hc
  split at hc
  · simp at hc
  split at hc
  · simp at hc
  split at hc
  · simp at hc
  split at hc
  · simp at hc
  split at hc <;>
  · by_cases hd : env.imgsDirExists = false
    · simp [hd] at hc
    · simp [hd] at hc
      cases hc
      exact ⟨rfl, rfl⟩

/-- C4 witness: a concrete successful call returns a 4x4 bitmap. -/
theorem convert_output_dimensions_witness :
    (convert_cmap_to_image envOk st0 0 "f" 4).result = Except.ok (Img.blank 4 4)
    ∧ (Img.blank 4 4).width = 4 ∧ (Img.blank 4 4).height = 4 :=
  ⟨rfl, convert_output_dimensions envOk st0 0 "f" 4 (Img.blank 4 4) (LRUvalid_nil envOk) rfl⟩

theorem convertUncached_blank (env : Env) (code : Int) (fp : String) (size : Nat)
    (hex : env.pathExists fp = true) (hnn : ¬code < 0)
    (hload : env.loadOk fp size = true) (hrange : ¬0x10FFFF < code)
    (hbb : env.bbox code fp size = none) (hdir : env.imgsDirExists = true) :
    convertUncached env code fp size = .ok (Img.blank size size) := by
  simp [convertUncached, hex, hnn, hload, hrange, hbb, hdir]

/-- C3 (amended): a valid codepoint whose rendered canvas has an empty
bounding box yields a blank size-by-size bitmap and no error, provided the
hard-coded ./imgs output directory exists so that the unconditional save of
line 96 succeeds. -/
theorem blank_glyph_policy (env : Env) (st : CState) (code : Int) (fp : String) (size : Nat)
    (hv : LRUvalid env st.lru)
    (hex : env.pathExists fp = true) (hnn : ¬code < 0)
    (hload : env.loadOk fp size = true) (hrange : ¬0x10FFFF < code)
    (hbb : env.bbox code fp size = none) (hdir : env.imgsDirExists = true) :
    (convert_cmap_to_image env st code fp size).result = .ok (Img.blank size size) := by
  have hu := convertUncached_blank env code fp size hex hnn hload hrange hbb hdir
  unfold convert_cmap_to_image
  cases hl : lruLookup st.lru (code, fp, size) with
  | some v =>
      have hval := hv _ _ (lruLookup_mem _ _ _ hl)
      rw [hu] at hval
      simp only [Except.ok.injEq] at hval
      simp [hval]
  | none => simp [hu]

/-- C3 witness: concrete blank-glyph call succeeding with a blank bitmap. -/
theorem blank_glyph_policy_witness :
    (convert_cmap_to_image envOk st0 3 "f" 4).result = .ok (Img.blank 4 4) :=
  blank_glyph_policy envOk st0 3 "f" 4 (LRUvalid_nil envOk) rfl (by decide) rfl
    (by decide) rfl rfl

/-- C3 counterexample: with the ./imgs directory absent, the very same
blank-glyph call raises FileNotFoundError instead of returning a blank
bitmap, refuting the claim as stated. -/
theorem blank_glyph_policy_cex :
    env3.bbox 3 "f" 4 = none
    ∧ (convert_cmap_to_image env3 st0 3 "f" 4).result = .error PyErr.fileNotFound := by
  exact ⟨rfl, rfl⟩

/-- C9: a non-memoized call with otherwise valid arguments saves the final
bitmap to ./imgs/(code).png before returning — overwriting whatever was there,
since the state st is arbitrary — when the ./imgs directory exists, and raises
FileNotFoundError (leaving the state untouched) when it does not, in the blank
branch as well as the cropped branch (the bounding-box oracle is arbitrary). -/
theorem convert_unconditional_save (env : Env) (st : CState) (code : Int) (fp : String)
    (size : Nat)
    (hmiss : lruLookup st.lru (code, fp, size) = none)
    (hex : env.pathExists fp = true) (hnn : ¬code < 0)
    (hload : env.loadOk fp size = true) (hrange : ¬0x10FFFF < code) :
    (env.imgsDirExists = true →
       ∃ img, (convert_cmap_to_image env st code fp size).result = .ok img
         ∧ (convert_cmap_to_image env st code fp size).state.fs.get (.imgsOut code) = some img
         ∧ (convert_cmap_to_image env st code fp size).recomputed = true)
    ∧ (env.imgsDirExists = false →
       (convert_cmap_to_image env st code fp size).result = .error PyErr.fileNotFound
         ∧ (convert_cmap_to_image env st code fp size).state = st) := by
  constructor
  · intro hdir
    cases hbb : env.bbox code fp size with
    | some b =>
        refine ⟨Img.resized (Img.cropped (Img.canvas code fp size) (cropRegion size b))
          size size, ?_, ?_, ?_⟩ <;>
          simp [convert_cmap_to_image, hmiss, convertUncached, hex, hnn, hload, hrange,
            hbb, hdir, FS.get, FS.write]
    | none =>
        refine ⟨Img.blank size size, ?_, ?_, ?_⟩ <;>
          simp [convert_cmap_to_image, hmiss, convertUncached, hex, hnn, hload, hrange,
            hbb, hdir, FS.get, FS.write]
  · intro hdir
    constructor <;>
      simp [convert_cmap_to_image, hmiss, convertUncached, hex, hnn, hload, hrange, hdir]

/-- C9 witness: the save is observable on a fresh state when ./imgs exists,
and the same call fails when it does not. -/
theorem convert_unconditional_save_witness :
    (∃ img, (convert_cmap_to_image envOk st0 0 "f" 4).result = .ok img
       ∧ (convert_cmap_to_image envOk st0 0 "f" 4).state.fs.get (.imgsOut 0) = some img
       ∧ (convert_cmap_to_image envOk st0 0 "f" 4).recomputed = true)
    ∧ (convert_cmap_to_image env3 st0 0 "f" 4).result = .error PyErr.fileNotFound :=
  ⟨(convert_unconditional_save envOk st0 0 "f" 4 rfl rfl (by decide) rfl (by decide)).1 rfl,
   ((convert_unconditional_save env3 st0 0 "f" 4 rfl rfl (by decide) rfl (by decide)).2 rfl).1⟩

/-- C6 (amended): for a nonempty bounding box whose padded square fits the
canvas, the crop region has padding size/10, half-extent
max(width, height)/2 + padding which is at least max(width, height)/2, is
clamped to the canvas, and its center equals the center of the bounding box
exactly (in particular within one pixel); under clamping at a canvas edge the
center can shift by more than one pixel (see the counterexample). -/
theorem crop_geometry (img_size : Nat) (b : BBox)
    (hx1 : cropHalfSize img_size b ≤ bboxCenterX b)
    (hx2 : bboxCenterX b + cropHalfSize img_size b ≤ 2 * img_size)
    (hy1 : cropHalfSize img_size b ≤ bboxCenterY b)
    (hy2 : bboxCenterY b + cropHalfSize img_size b ≤ 2 * img_size) :
    cropPadding img_size = img_size / 10
    ∧ cropHalfSize img_size b
        = max (b.right - b.left) (b.bottom - b.top) / 2 + cropPadding img_size
    ∧ max (b.right - b.left) (b.bottom - b.top) / 2 ≤ cropHalfSize img_size b
    ∧ (cropRegion img_size b).2.2.1 ≤ 2 * img_size
    ∧ (cropRegion img_size b).2.2.2 ≤ 2 * img_size
    ∧ ((cropRegion img_size b).1 + (cropRegion img_size b).2.2.1) / 2 = bboxCenterX b
    ∧ ((cropRegion img_size b).2.1 + (cropRegion img_size b).2.2.2) / 2 = bboxCenterY b := by
  refine ⟨rfl, rfl, Nat.le_add_right _ _, ?_, ?_, ?_, ?_⟩
  · exact min_le_left _ _
  · exact min_le_left _ _
  · simp only [cropRegion, min_eq_right hx2]
    omega
  · simp only [cropRegion, min_eq_right hy2]
    omega

/-- C6 witness: a concrete interior bounding box with all the geometric
properties. -/
theorem crop_geometry_witness :
    cropPadding 10 = 10 / 10
    ∧ cropHalfSize 10 b6w
        = max (b6w.right - b6w.left) (b6w.bottom - b6w.top) / 2 + cropPadding 10
    ∧ max (b6w.right - b6w.left) (b6w.bottom - b6w.top) / 2 ≤ cropHalfSize 10 b6w
    ∧ (cropRegion 10 b6w).2.2.1 ≤ 2 * 10
    ∧ (cropRegion 10 b6w).2.2.2 ≤ 2 * 10
    ∧ ((cropRegion 10 b6w).1 + (cropRegion 10 b6w).2.2.1) / 2 = bboxCenterX b6w
    ∧ ((cropRegion 10 b6w).2.1 + (cropRegion 10 b6w).2.2.2) / 2 = bboxCenterY b6w :=
  crop_geometry 10 b6w (by decide) (by decide) (by decide) (by decide)

/-- C6 counterexample: the nonempty box 0..2 x 0..2 on the 200x200 canvas of
img_size 100 is clamped to the crop square (0, 0, 12, 12), whose center 6 is
5 pixels away from the box center 1 — more than one pixel, refuting the
centering clause of the claim as stated. -/
theorem crop_geometry_cex :
    b6c.left < b6c.right ∧ b6c.top < b6c.bottom
    ∧ b6c.right ≤ 2 * 100 ∧ b6c.bottom ≤ 2 * 100
    ∧ cropRegion 100 b6c = (0, 0, 12, 12)
    ∧ 1 < natDist (((cropRegion 100 b6c).1 + (cropRegion 100 b6c).2.2.1) / 2)
        (bboxCenterX b6c) := by
  decide

/-- C10: the crawler decryption helpers have no fallback: change_price copies
"." unchanged and replaces every other character by its mapping entry,
raising KeyError (none) when a character is absent; change_sub_title behaves
the same but preserves ".", "|" and " ". -/
theorem crawler_decrypt_no_fallback :
    (∀ (s : List Char) (dm : Char → Option (List Char)),
       (∀ c ∈ s, c ≠ '.' → dm c ≠ none) →
       change_price s dm
         = some (concatAll (s.map (fun c => if c = '.' then ['.'] else (dm c).getD []))))
    ∧ (∀ (s : List Char) (dm : Char → Option (List Char)) (c : Char),
       c ∈ s → c ≠ '.' → dm c = none → change_price s dm = none)
    ∧ (∀ (s : List Char) (dm : Char → Option (List Char)),
       (∀ c ∈ s, ¬(c = '.' ∨ c = '|' ∨ c = ' ') → dm c ≠ none) →
       change_sub_title s dm
         = some (concatAll (s.map
             (fun c => if c = '.' ∨ c = '|' ∨ c = ' ' then [c] else (dm c).getD []))))
    ∧ (∀ (s : List Char) (dm : Char → Option (List Char)) (c : Char),
       c ∈ s → ¬(c = '.' ∨ c = '|' ∨ c = ' ') → dm c = none →
       change_sub_title s dm = none) := by
  refine ⟨?_, ?_, ?_, ?_⟩
  · intro s dm
    induction s with
    | nil => intro _; rfl
    | cons a rest ih =>
        intro hall
        have ihr := ih (fun c hm hne => hall c (List.mem_cons_of_mem _ hm) hne)
        by_cases ha : a = '.'
        · subst ha
          simp [change_price, concatAll, ihr]
        · have hdm : dm a ≠ none := hall a (List.mem_cons_self _ _) ha
          cases hv : dm a with
          | none => exact absurd hv hdm
          | some v => simp [change_price, ha, hv, concatAll, ihr]
  · intro s dm c
    induction s with
    | nil => intro hmem; simp at hmem
    | cons a rest ih =>
        intro hmem hne hnone
        rcases List.mem_cons.mp hmem with rfl | hm
        · simp [change_price, hne, hnone]
        · by_cases ha : a = '.'
          · simp [change_price, ha, ih hm hne hnone]
          · cases hv : dm a with
            | none => simp [change_price, ha, hv]
            | some v => simp [change_price, ha, hv, ih hm hne hnone]
  · intro s dm
    induction s with
    | nil => intro _; rfl
    | cons a rest ih =>
        intro hall
        have ihr := ih (fun c hm hne => hall c (List.mem_cons_of_mem _ hm) hne)
        by_cases ha : a = '.' ∨ a = '|' ∨ a = ' '
        · simp [change_sub_title, ha, concatAll, ihr]
        · have hdm : dm a ≠ none := hall a (List.mem_cons_self _ _) ha
          cases hv : dm a with
          | none => exact absurd hv hdm
          | some v => simp [change_sub_title, ha, hv, concatAll, ihr]
  · intro s dm c
    induction s with
    | nil => intro hmem; simp at hmem
    | cons a rest ih =>
        intro hmem hne hnone
        rcases List.mem_cons.mp hmem with rfl | hm
        · simp [change_sub_title, hne, hnone]
        · by_cases ha : a = '.' ∨ a = '|' ∨ a = ' '
          · simp [change_sub_title, ha, ih hm hne hnone]
          · cases hv : dm a with
            | none => simp [change_sub_title, ha, hv]
            | some v => simp [change_sub_title, ha, hv, ih hm hne hnone]

/-- C10 witness: concrete runs of both helpers, succeeding on covered input
and raising KeyError on a missing character. -/
theorem crawler_decrypt_no_fallback_witness :
    change_price ['1', '.', '1'] dmw = some ['9', '.', '9']
    ∧ change_price ['2'] dmw = none
    ∧ change_sub_title ['1', '|', ' ', '1'] dmw = some ['9', '|', ' ', '9']
    ∧ change_sub_title ['2'] dmw = none :=
  ⟨(crawler_decrypt_no_fallback.1 ['1', '.', '1'] dmw (by decide)).trans (by decide),
   crawler_decrypt_no_fallback.2.1 ['2'] dmw '2' (by decide) (by decide) (by decide),
   (crawler_decrypt_no_fallback.2.2.1 ['1', '|', ' ', '1'] dmw (by decide)).trans (by decide),
   crawler_decrypt_no_fallback.2.2.2 ['2'] dmw '2' (by decide) (by decide) (by decide)⟩

/-! Helper lemmas for the webpage decoder. -/

theorem hexChars_ne_semi_amp (c : Char) (hc : isHexChar c = true) : c ≠ ';' ∧ c ≠ '&' := by
  constructor <;> intro h <;> rw [h] at hc <;> exact absurd hc (by decide)

theorem splitSemi_no_semi_append (a rest : List Char) (ha : ∀ c ∈ a, c ≠ ';') :
    splitSemi (a ++ ';' :: rest) = a :: splitSemi rest := by
  induction a with
  | nil => simp [splitSemi]
  | cons c t ih =>
      have hc : c ≠ ';' := ha c (List.mem_cons_self _ _)
      have ih2 := ih (fun x hx => ha x (List.mem_cons_of_mem _ hx))
      simp [splitSemi, hc, ih2]

theorem stripAmpHashX_cons_ne (c : Char) (t : List Char) (hc : c ≠ '&') :
    stripAmpHashX (c :: t) = c :: stripAmpHashX t := by
  rw [stripAmpHashX.eq_def]
  split
  · rename_i rest heq
    exact absurd (List.cons.inj heq).1 hc
  · rename_i c2 rest heq
    have h1 := (List.cons.inj heq).1
    have h2 := (List.cons.inj heq).2
    rw [h1, h2]
  · rename_i heq
    exact absurd heq (List.cons_ne_nil _ _)

theorem stripAmpHashX_no_amp (h : List Char) (hh : ∀ c ∈ h, c ≠ '&') :
    stripAmpHashX h = h := by
  induction h with
  | nil => rfl
  | cons c t ih =>
      rw [stripAmpHashX_cons_ne c t (hh c (List.mem_cons_self _ _))]
      rw [ih (fun x hx => hh x (List.mem_cons_of_mem _ hx))]

theorem decodeStep_token (fm : List (List Char × List Char)) (acc h : List Char)
    (hne : h ≠ []) (hhex : ∀ c ∈ h, isHexChar c = true) :
    decodeStep fm acc ('&' :: '#' :: 'x' :: h) = acc ++ decodeToken fm h := by
  have hstrip : stripAmpHashX ('&' :: '#' :: 'x' :: h) = h := by
    have h0 : stripAmpHashX ('&' :: '#' :: 'x' :: h) = stripAmpHashX h := rfl
    rw [h0]
    exact stripAmpHashX_no_amp h (fun c hm => (hexChars_ne_semi_amp c (hhex c hm)).2)
  unfold decodeStep decodeToken
  simp only [hstrip]
  rw [if_neg (by simp), if_neg hne]
  cases lookupC fm (uniKey h) <;> rfl

theorem decodeEncrypted_foldl (fm : List (List Char × List Char))
    (toks : List (List Char)) (acc : List Char)
    (hall : ∀ h ∈ toks, h ≠ [] ∧ ∀ c ∈ h, isHexChar c = true) :
    (splitSemi (encTokens toks)).foldl (decodeStep fm) acc
      = acc ++ concatAll (toks.map (decodeToken fm)) := by
  induction toks generalizing acc with
  | nil => simp [encTokens, splitSemi, decodeStep, concatAll]
  | cons h t ih =>
      have h1 := hall h (List.mem_cons_self _ _)
      have hsplit : splitSemi (encTokens (h :: t))
          = ('&' :: '#' :: 'x' :: h) :: splitSemi (encTokens t) := by
        have hshape : encTokens (h :: t)
            = ('&' :: '#' :: 'x' :: h) ++ ';' :: encTokens t := by
          simp [encTokens]
        rw [hshape]
        refine splitSemi_no_semi_append _ _ ?_
        intro c hm
        simp only [List.mem_cons] at hm
        rcases hm with rfl | rfl | rfl | hm2
        · decide
        · decide
        · decide
        · exact (hexChars_ne_semi_amp c (h1.2 c hm2)).1
      rw [hsplit]
      simp only [List.foldl_cons]
      rw [decodeStep_token fm acc h h1.1 h1.2]
      rw [ih _ (fun x hm => hall x (List.mem_cons_of_mem _ hm))]
      simp [concatAll, List.append_assoc]

/-- C7: the decoder of decrypt_webpage_example processes each token
"&#x" hex ";" by looking up the key uni followed by the uppercased hex in the
glyph mapping, substituting the mapped text when present and the fallback "?"
when absent; on the mapping of the spec example, decoding the sample
encrypted text yields 35. -/
theorem decoder_contract :
    (∀ (fm : List (List Char × List Char)) (toks : List (List Char)),
       (∀ h ∈ toks, h ≠ [] ∧ ∀ c ∈ h, isHexChar c = true) →
       decodeEncrypted fm (encTokens toks) = concatAll (toks.map (decodeToken fm)))
    ∧ (∀ (fm : List (List Char × List Char)) (h t : List Char),
       lookupC fm (uniKey h) = some t → decodeToken fm h = t)
    ∧ (∀ (fm : List (List Char × List Char)) (h : List Char),
       lookupC fm (uniKey h) = none → decodeToken fm h = ['?'])
    ∧ decodeEncrypted exampleMap ("&#xe78c;&#xe562;".toList) = "35".toList := by
  refine ⟨?_, ?_, ?_, by decide⟩
  · intro fm toks hall
    unfold decodeEncrypted
    rw [decodeEncrypted_foldl fm toks [] hall]
    simp
  · intro fm h t hl
    unfold decodeToken
    rw [hl]
  · intro fm h hl
    unfold decodeToken
    rw [hl]

/-- C7 witness: the general token law instantiated on the tokens of the spec
example, one of which is absent from the mapping. -/
theorem decoder_contract_witness :
    decodeEncrypted exampleMap (encTokens ["e78c".toList, "abcd".toList])
      = concatAll ([("e78c".toList), ("abcd".toList)].map (decodeToken exampleMap))
    ∧ decodeEncrypted exampleMap ("&#xe78c;&#xe562;".toList) = "35".toList :=
  ⟨decoder_contract.1 exampleMap ["e78c".toList, "abcd".toList] (by decide),
   decoder_contract.2.2.2⟩

/-! Coherence of the memoization table is preserved by calls. -/

theorem lruTouch_subset (l : List (CKey × Img)) (k : CKey) (e : CKey × Img)
    (he : e ∈ lruTouch l k) : e ∈ l := by
  unfold lruTouch at he
  cases hf : l.find? (fun q => q.1 == k) with
  | none => rw [hf] at he; exact he
  | some q =>
      rw [hf] at he
      rcases List.mem_cons.mp he with rfl | hm
      · exact List.mem_of_find?_eq_some hf
      · exact (List.mem_filter.mp hm).1

theorem LRUvalid_convert (env : Env) (st : CState) (code : Int) (fp : String) (size : Nat)
    (hv : LRUvalid env st.lru) :
    LRUvalid env (convert_cmap_to_image env st code fp size).state.lru := by
  unfold convert_cmap_to_image
  cases hl : lruLookup st.lru (code, fp, size) with
  | some v =>
      intro k img hm
      exact hv k img (lruTouch_subset _ _ _ hm)
  | none =>
      cases hc : convertUncached env code fp size with
      | error e => exact hv
      | ok i =>
          intro k img hm
          have hm2 : (k, img) ∈ ((code, fp, size), i) :: st.lru :=
            List.take_subset _ _ hm
          rcases List.mem_cons.mp hm2 with heq | hmem
          · cases heq
            exact hc
          · exact hv k img hmem

theorem LRUvalid_runCalls (env : Env) (st : CState) (calls : List CKey)
    (hv : LRUvalid env st.lru) :
    LRUvalid env (runCalls env st calls).lru := by
  induction calls generalizing st with
  | nil => exact hv
  | cons k ks ih =>
      exact ih _ (LRUvalid_convert env st k.1 k.2.1 k.2.2 hv)

theorem convert_result_hit (env : Env) (st : CState) (code : Int) (fp : String) (size : Nat)
    (v : Img) (hl : lruLookup st.lru (code, fp, size) = some v) :
    (convert_cmap_to_image env st code fp size).result = .ok v
    ∧ (convert_cmap_to_image env st code fp size).recomputed = false := by
  unfold convert_cmap_to_image
  rw [hl]
  exact ⟨rfl, rfl⟩

/-- C5 (amended): with a coherent memoization table, after a successful call
of convert_cmap_to_image a later call with identical arguments returns the
bit-identical bitmap, and it does so without recomputing the rendering
provided the entry has not been evicted from the capacity-128 LRU table by
the intervening calls; moreover any successful call with identical arguments,
from any coherent state — even after eviction and recomputation — returns the
bit-identical bitmap, the environment being fixed. -/
theorem memoized_idempotence (env : Env) (st : CState) (code : Int) (fp : String)
    (size : Nat) (img : Img) (calls : List CKey)
    (hv : LRUvalid env st.lru)
    (h1 : (convert_cmap_to_image env st code fp size).result = .ok img)
    (hres : (lruLookup
        (runCalls env (convert_cmap_to_image env st code fp size).state calls).lru
        (code, fp, size)).isSome = true) :
    (convert_cmap_to_image env
        (runCalls env (convert_cmap_to_image env st code fp size).state calls)
        code fp size).result = .ok img
    ∧ (convert_cmap_to_image env
        (runCalls env (convert_cmap_to_image env st code fp size).state calls)
        code fp size).recomputed = false
    ∧ (∀ (st2 : CState) (img2 : Img), LRUvalid env st2.lru →
        (convert_cmap_to_image env st2 code fp size).result = .ok img2 → img2 = img) := by
  have huc : convertUncached env code fp size = .ok img :=
    convert_ok_val _ _ _ _ _ _ hv h1
  have hv2 : LRUvalid env
      (runCalls env (convert_cmap_to_image env st code fp size).state calls).lru :=
    LRUvalid_runCalls env _ calls (LRUvalid_convert env st code fp size hv)
  obtain ⟨v, hl⟩ := Option.isSome_iff_exists.mp hres
  have hval := hv2 _ _ (lruLookup_mem _ _ _ hl)
  rw [huc] at hval
  simp only [Except.ok.injEq] at hval
  refine ⟨?_, ?_, ?_⟩
  · rw [hval]
    exact (convert_result_hit env _ code fp size v hl).1
  · exact (convert_result_hit env _ code fp size v hl).2
  · intro st2 img2 hv3 h2
    have h3 := convert_ok_val _ _ _ _ _ _ hv3 h2
    rw [huc] at h3
    simp only [Except.ok.injEq] at h3
    exact h3.symm

/-- C5 witness: a fresh successful call followed immediately by a repeat call
with identical arguments returns the same bitmap without recomputation. -/
theorem memoized_idempotence_witness :
    (convert_cmap_to_image envOk
        (runCalls envOk (convert_cmap_to_image envOk st0 0 "f" 4).state [])
        0 "f" 4).result = .ok (Img.blank 4 4)
    ∧ (convert_cmap_to_image envOk
        (runCalls envOk (convert_cmap_to_image envOk st0 0 "f" 4).state [])
        0 "f" 4).recomputed = false := by
  have h := memoized_idempotence envOk st0 0 "f" 4 (Img.blank 4 4) []
    (LRUvalid_nil envOk) rfl (by decide)
  exact ⟨h.1, h.2.1⟩

/-- C5 counterexample: the first element of calls5 computes and caches the
key (0, "", 0); after the 128 further distinct keys of calls5, a second call
with the identical arguments runs the body again — the entry was evicted from
the capacity-128 table — refuting the claim that every repeat call avoids
recomputation.  The bitmap itself is still bit-identical. -/
theorem memoized_idempotence_cex :
    calls5.head? = some ((0 : Int), "", 0)
    ∧ (convert_cmap_to_image env5 st0 0 "" 0).result = .ok (Img.blank 0 0)
    ∧ (convert_cmap_to_image env5 (runCalls env5 st0 calls5) 0 "" 0).result
        = .ok (Img.blank 0 0)
    ∧ (convert_cmap_to_image env5 (runCalls env5 st0 calls5) 0 "" 0).recomputed = true := by
  refine ⟨by decide, rfl, rfl, by decide⟩

/-! Helper lemmas about the python dict model. -/

theorem dlookup_cons (e : String × String) (t : List (String × String)) (g : String) :
    dlookup (e :: t) g = if e.1 = g then some e.2 else dlookup t g := by
  by_cases h : e.1 = g
  · rw [if_pos h]
    unfold dlookup
    rw [List.find?_cons_of_pos _ (by simp [h])]
    rfl
  · rw [if_neg h]
    unfold dlookup
    rw [List.find?_cons_of_neg _ (by simp [h])]

theorem dlookup_append_new (d : List (String × String)) (k v g : String)
    (hany : d.any (fun e => e.1 == k) = false) :
    dlookup (d ++ [(k, v)]) g = if g = k then some v else dlookup d g := by
  induction d with
  | nil =>
      by_cases hg : g = k
      · simp [dlookup_cons, hg, dlookup]
      · simp [dlookup_cons, hg, Ne.symm hg, dlookup]
  | cons e t ih =>
      simp only [List.any_cons, Bool.or_eq_false_iff] at hany
      have hek : ¬e.1 = k := by simpa using hany.1
      rw [List.cons_append, dlookup_cons, dlookup_cons]
      by_cases heg : e.1 = g
      · rw [if_pos heg, if_pos heg, if_neg (fun hgk => hek (heg.trans hgk))]
      · rw [if_neg heg, if_neg heg, ih hany.2]

theorem dlookup_map_replace (d : List (String × String)) (k v g : String) :
    dlookup (d.map (fun e => if e.1 == k then (k, v) else e)) g
      = if g = k then (if d.any (fun e => e.1 == k) then some v else none)
        else dlookup d g := by
  induction d with
  | nil => by_cases hg : g = k <;> simp [dlookup, hg]
  | cons e t ih =>
      rw [List.map_cons, List.any_cons]
      by_cases hek : e.1 = k
      · have hbeq : (e.1 == k) = true := by simp [hek]
        rw [hbeq, if_pos rfl]
        simp only [Bool.true_or]
        rw [dlookup_cons]
        by_cases hg : g = k
        · rw [if_pos (by simpa using hg.symm), if_pos hg]
          rfl
        · rw [if_neg (by simpa using fun h => hg h.symm), ih, if_neg hg, if_neg hg,
            dlookup_cons, if_neg (fun h => hg (hek ▸ h).symm)]
      · have hbeq : (e.1 == k) = false := by simp [hek]
        rw [hbeq, if_neg (by simp)]
        simp only [Bool.false_or]
        rw [dlookup_cons]
        by_cases heg : e.1 = g
        · rw [if_pos heg, if_neg (fun hgk => hek (heg.trans hgk)), dlookup_cons, if_pos heg]
        · rw [if_neg heg, ih, dlookup_cons, if_neg heg]

theorem dlookup_dinsert (d : List (String × String)) (k v g : String) :
    dlookup (dinsert d k v) g = if g = k then some v else dlookup d g := by
  unfold dinsert
  by_cases hany : d.any (fun e => e.1 == k) = true
  · rw [if_pos hany, dlookup_map_replace, hany]
    rfl
  · have hf : d.any (fun e => e.1 == k) = false := by
      cases h2 : d.any (fun e => e.1 == k) with
      | false => rfl
      | true => exact absurd h2 hany
    rw [if_neg (by rw [hf]; decide), dlookup_append_new d k v g hf]

theorem dinsert_keys (d : List (String × String)) (k v : String) :
    (dinsert d k v).map (fun e => e.1)
      = if d.any (fun e => e.1 == k) then d.map (fun e => e.1)
        else d.map (fun e => e.1) ++ [k] := by
  unfold dinsert
  by_cases hany : d.any (fun e => e.1 == k) = true
  · rw [if_pos hany, if_pos hany, List.map_map]
    refine List.map_congr_left ?_
    intro e _
    by_cases hek : e.1 = k
    · simp [hek]
    · simp [hek]
  · have hf : d.any (fun e => e.1 == k) = false := by
      cases h2 : d.any (fun e => e.1 == k) with
      | false => rfl
      | true => exact absurd h2 hany
    rw [if_neg (by rw [hf]; decide), if_neg (by rw [hf]; decide), List.map_append]
    rfl

theorem dinsert_keys_mem (d : List (String × String)) (k v g : String) :
    g ∈ (dinsert d k v).map (fun e => e.1)
      ↔ g ∈ d.map (fun e => e.1) ∨ g = k := by
  rw [dinsert_keys]
  by_cases hany : d.any (fun e => e.1 == k) = true
  · rw [if_pos hany]
    obtain ⟨e, hmem, hbeq⟩ := List.any_eq_true.mp hany
    have hk : k ∈ d.map (fun e => e.1) := by
      refine List.mem_map.mpr ⟨e, hmem, ?_⟩
      simpa using hbeq
    constructor
    · exact Or.inl
    · rintro (h | rfl)
      · exact h
      · exact hk
  · rw [if_neg hany]
    simp

theorem dinsert_keys_nodup (d : List (String × String)) (k v : String)
    (hd : (d.map (fun e => e.1)).Nodup) :
    ((dinsert d k v).map (fun e => e.1)).Nodup := by
  rw [dinsert_keys]
  by_cases hany : d.any (fun e => e.1 == k) = true
  · rw [if_pos hany]
    exact hd
  · rw [if_neg hany]
    refine List.Nodup.append hd (List.nodup_singleton k) ?_
    intro a ha hb
    rw [List.mem_singleton] at hb
    subst hb
    obtain ⟨e, hmem, he⟩ := List.mem_map.mp ha
    exact hany (List.any_eq_true.mpr ⟨e, hmem, by simp [he]⟩)

/-! Helper lemmas about one loop iteration of extract_text_from_font. -/

theorem convert_result_uncached_ok (env : Env) (st : CState) (code : Int) (fp : String)
    (size : Nat) (img : Img) (hv : LRUvalid env st.lru)
    (huc : convertUncached env code fp size = .ok img) :
    (convert_cmap_to_image env st code fp size).result = .ok img := by
  unfold convert_cmap_to_image
  cases hl : lruLookup st.lru (code, fp, size) with
  | some v =>
      have hval := hv _ _ (lruLookup_mem _ _ _ hl)
      rw [huc] at hval
      simp only [Except.ok.injEq] at hval
      rw [hval]
  | none => rw [huc]

theorem entryText_lru (env : Env) (fp : String) (size : Nat) (cd : Option String)
    (st : CState) (c : Nat) (g : String) :
    (entryText env fp size cd st c g).2.lru
      = (convert_cmap_to_image env st (c : Int) fp size).state.lru := by
  unfold entryText
  split
  · rename_i a st1 rec heq
    rw [heq]
  · rename_i image st1 rec heq
    rw [heq]
    cases cd with
    | none => cases env.ocrText image <;> rfl
    | some dd =>
        dsimp only
        by_cases hr : 0x10FFFF < c
        · rw [if_pos hr]
        · rw [if_neg hr]
          by_cases hch : st1.fs.check (FPath.cacheFile dd c g) = true
          · rw [if_pos hch]
            cases env.ocrText image <;> rfl
          · rw [if_neg hch]
            by_cases hw : env.cacheWriteOk dd c g = true
            · rw [if_pos hw]
              cases env.ocrText image <;> rfl
            · rw [if_neg hw]

theorem entryText_valid (env : Env) (fp : String) (size : Nat) (cd : Option String)
    (st : CState) (c : Nat) (g : String) (hv : LRUvalid env st.lru) :
    LRUvalid env (entryText env fp size cd st c g).2.lru := by
  rw [entryText_lru]
  exact LRUvalid_convert env st _ fp size hv

theorem entryText_fail (env : Env) (fp : String) (size : Nat) (cd : Option String)
    (st : CState) (c : Nat) (g : String) (hv : LRUvalid env st.lru)
    (hfail : (∃ e, convertUncached env (c : Int) fp size = .error e)
      ∨ (∃ img, convertUncached env (c : Int) fp size = .ok img ∧ env.ocrText img = none)) :
    (entryText env fp size cd st c g).1 = "" := by
  rcases hfail with ⟨e, he⟩ | ⟨img, hok, hocr⟩
  · have hres : (convert_cmap_to_image env st (c : Int) fp size).result = .error e := by
      unfold convert_cmap_to_image
      cases hl : lruLookup st.lru ((c : Int), fp, size) with
      | some v =>
          have hval := hv _ _ (lruLookup_mem _ _ _ hl)
          rw [he] at hval
          exact absurd hval (by simp)
      | none => rw [he]
    unfold entryText
    split
    · rfl
    · rename_i image st1 rec heq
      rw [heq] at hres
      simp at hres
  · have hres : (convert_cmap_to_image env st (c : Int) fp size).result = .ok img :=
      convert_result_uncached_ok env st _ fp size img hv hok
    unfold entryText
    split
    · rename_i a st1 rec heq
      rw [heq] at hres
      try simp at hres
    · rename_i image st1 rec heq
      rw [heq] at hres
      simp only [Except.ok.injEq] at hres
      have himg : env.ocrText image = none := by
        rw [hres]
        exact hocr
      cases cd with
      | none => simp [himg]
      | some dd =>
          by_cases hr : 0x10FFFF < c
          · simp [hr]
          · simp only [if_neg hr]
            by_cases hch : st1.fs.check (FPath.cacheFile dd c g) = true
            · simp [hch, himg]
            · by_cases hw : env.cacheWriteOk dd c g = true
              · simp [hch, hw, himg]
              · simp [hch, hw]

/-! Helper lemmas about the extraction loop. -/

theorem extractLoop_keys_mem (env : Env) (fp : String) (size : Nat) (cd : Option String)
    (cmap : List (Nat × String)) :
    ∀ (st : CState) (d : List (String × String)) (g : String),
      g ∈ (extractLoop env fp size cd cmap st d).2.map (fun e => e.1)
        ↔ g ∈ d.map (fun e => e.1) ∨ g ∈ cmap.map (fun e => e.2) := by
  induction cmap with
  | nil => intro st d g; simp [extractLoop]
  | cons e rest ih =>
      intro st d g
      cases e with
      | mk c gl =>
          simp only [extractLoop]
          rw [ih]
          rw [dinsert_keys_mem]
          simp only [List.map_cons, List.mem_cons]
          tauto

theorem extractLoop_keys_nodup (env : Env) (fp : String) (size : Nat) (cd : Option String)
    (cmap : List (Nat × String)) :
    ∀ (st : CState) (d : List (String × String)), (d.map (fun e => e.1)).Nodup →
      ((extractLoop env fp size cd cmap st d).2.map (fun e => e.1)).Nodup := by
  induction cmap with
  | nil => intro st d hd; simpa [extractLoop] using hd
  | cons e rest ih =>
      intro st d hd
      cases e with
      | mk c gl =>
          simp only [extractLoop]
          exact ih _ _ (dinsert_keys_nodup _ _ _ hd)

theorem extractLoop_lookup_notin (env : Env) (fp : String) (size : Nat) (cd : Option String)
    (cmap : List (Nat × String)) (g : String) :
    ∀ (st : CState) (d : List (String × String)), g ∉ cmap.map (fun e => e.2) →
      dlookup (extractLoop env fp size cd cmap st d).2 g = dlookup d g := by
  induction cmap with
  | nil => intro st d _; simp [extractLoop]
  | cons e rest ih =>
      intro st d hnot
      cases e with
      | mk c gl =>
          have hgl : ¬g = gl := by
            intro h
            exact hnot (by simp [h])
          have hrest : g ∉ rest.map (fun e => e.2) := by
            intro h
            exact hnot (by simp [h])
          simp only [extractLoop]
          rw [ih _ _ hrest, dlookup_dinsert, if_neg hgl]

theorem extractLoop_lookup_fail (env : Env) (fp : String) (size : Nat) (cd : Option String)
    (cmap : List (Nat × String)) (c : Nat) (g : String) :
    ∀ (st : CState) (d : List (String × String)),
      LRUvalid env st.lru → (c, g) ∈ cmap → (cmap.map (fun e => e.2)).count g = 1 →
      ((∃ e, convertUncached env (c : Int) fp size = .error e)
        ∨ (∃ img, convertUncached env (c : Int) fp size = .ok img ∧ env.ocrText img = none)) →
      dlookup (extractLoop env fp size cd cmap st d).2 g = some "" := by
  induction cmap with
  | nil => intro st d _ hmem _ _; exact absurd hmem (List.not_mem_nil _)
  | cons e rest ih =>
      intro st d hv hmem hcount hfail
      cases e with
      | mk c2 g2 =>
          have hkey : ((c2, g2) :: rest).map (fun e => e.2)
              = g2 :: rest.map (fun e => e.2) := rfl
          rw [hkey] at hcount
          by_cases hg : g2 = g
          · subst hg
            have hczero : (rest.map (fun e => e.2)).count g2 = 0 := by
              rw [List.count_cons_self] at hcount
              omega
            have hnotin : g2 ∉ rest.map (fun e => e.2) := by
              intro hmm
              have hpos := List.count_pos_iff.mpr hmm
              omega
            have hc2 : c2 = c := by
              rcases List.mem_cons.mp hmem with heq | hmm
              · exact (Prod.ext_iff.mp heq).1.symm
              · exact absurd (List.mem_map_of_mem (fun e => e.2) hmm) hnotin
            subst hc2
            have htext : (entryText env fp size cd st c2 g2).1 = "" :=
              entryText_fail env fp size cd st c2 g2 hv hfail
            simp only [extractLoop]
            rw [extractLoop_lookup_notin env fp size cd rest g2 _ _ hnotin]
            rw [htext, dlookup_dinsert, if_pos rfl]
          · have hmem2 : (c, g) ∈ rest := by
              rcases List.mem_cons.mp hmem with heq | hmm
              · exact absurd (Prod.ext_iff.mp heq).2.symm hg
              · exact hmm
            have hcount2 : (rest.map (fun e => e.2)).count g = 1 := by
              rw [List.count_cons] at hcount
              have hbeq : (g2 == g) = false := by simp [hg]
              rw [hbeq] at hcount
              simpa using hcount
            simp only [extractLoop]
            exact ih _ _ (entryText_valid env fp size cd st c2 g2 hv) hmem2 hcount2 hfail

/-- C1: for every font whose character map loads, extract_text_from_font
returns a mapping with exactly one entry per glyph identifier occurring as a
value of the character map — the key set equals the set of glyph identifiers,
with no duplicates — regardless of how many entries failed; and an entry whose
glyph identifier occurs once and whose rendering or classification fails gets
the empty string. -/
theorem extract_total_coverage (env : Env) (st : CState) (fp : String) (size : Nat)
    (cd : Option String) (cmap : List (Nat × String)) (d : List (String × String))
    (stF : CState)
    (hparse : env.parseFont fp = some cmap)
    (hok : extract_text_from_font env st fp size cd = .ok (d, stF)) :
    (d.map (fun e => e.1)).Nodup
    ∧ (∀ g, g ∈ d.map (fun e => e.1) ↔ g ∈ cmap.map (fun e => e.2))
    ∧ (LRUvalid env st.lru →
       ∀ c g, (c, g) ∈ cmap → (cmap.map (fun e => e.2)).count g = 1 →
       ((∃ e, convertUncached env (c : Int) fp size = .error e)
         ∨ (∃ img, convertUncached env (c : Int) fp size = .ok img ∧ env.ocrText img = none)) →
       dlookup d g = some "") := by
  unfold extract_text_from_font at hok
  split at hok
  · simp at hok
  split at hok
  · simp at hok
  split at hok
  · simp at hok
  rename_i cmap2 heq
  rw [hparse] at heq
  simp only [Option.some.injEq] at heq
  subst heq
  split at hok
  · simp at hok
  simp only [Except.ok.injEq, Prod.mk.injEq] at hok
  obtain ⟨hd, hst⟩ := hok
  subst hd
  refine ⟨?_, ?_, ?_⟩
  · exact extractLoop_keys_nodup env fp size cd cmap st [] (by simp)
  · intro g
    rw [extractLoop_keys_mem]
    simp
  · intro hv c g hmem hcount hfail
    exact extractLoop_lookup_fail env fp size cd cmap c g st [] hv hmem hcount hfail

/-- C1 witness: the one-entry extraction of the spec example covers exactly
the glyph identifier uniE001. -/
theorem extract_total_coverage_witness :
    "uniE001" ∈ ([("uniE001", "7")].map (fun e => e.1)) :=
  ((extract_total_coverage envOk st0 "f" 4 none [(57345, "uniE001")]
      [("uniE001", "7")] wStF rfl rfl).2.1 "uniE001").mpr (by decide)

/-- C2 (amended): extract_text_from_font raises FileNotFoundError for a
missing font path and ValueError for an unparsable font before any
character-map entry is processed; in addition, a failing os.makedirs on a
configured but absent cache directory and a failing DdddOcr construction also
raise before any entry; once those four pre-loop phases pass, the loop is
total — every per-entry exception (rendering, cache write, classification) is
caught and downgraded, so the call returns a mapping. -/
theorem fatal_soft_boundary :
    (∀ (env : Env) (st : CState) (fp : String) (size : Nat) (cd : Option String),
       env.pathExists fp = false →
       extract_text_from_font env st fp size cd = .error .fontNotFound)
    ∧ (∀ (env : Env) (st : CState) (fp : String) (size : Nat) (d : String),
       env.pathExists fp = true → env.pathExists d = false → env.dirMakeOk d = false →
       extract_text_from_font env st fp size (some d) = .error .osError)
    ∧ (∀ (env : Env) (st : CState) (fp : String) (size : Nat) (cd : Option String),
       env.pathExists fp = true → mkdirPhaseOk env cd = true → env.parseFont fp = none →
       extract_text_from_font env st fp size cd = .error .parseError)
    ∧ (∀ (env : Env) (st : CState) (fp : String) (size : Nat) (cd : Option String)
         (cmap : List (Nat × String)),
       env.pathExists fp = true → mkdirPhaseOk env cd = true →
       env.parseFont fp = some cmap → env.ocrInitOk = false →
       extract_text_from_font env st fp size cd = .error .ocrInitError)
    ∧ (∀ (env : Env) (st : CState) (fp : String) (size : Nat) (cd : Option String)
         (cmap : List (Nat × String)),
       env.pathExists fp = true → mkdirPhaseOk env cd = true →
       env.parseFont fp = some cmap → env.ocrInitOk = true →
       ∃ r, extract_text_from_font env st fp size cd = .ok r) := by
  refine ⟨?_, ?_, ?_, ?_, ?_⟩
  · intro env st fp size cd h
    simp [extract_text_from_font, h]
  · intro env st fp size d h1 h2 h3
    have hm : mkdirPhaseOk env (some d) = false := by simp [mkdirPhaseOk, h2, h3]
    simp [extract_text_from_font, h1, hm]
  · intro env st fp size cd h1 h2 h3
    simp [extract_text_from_font, h1, h2, h3]
  · intro env st fp size cd cmap h1 h2 h3 h4
    simp [extract_text_from_font, h1, h2, h3, h4]
  · intro env st fp size cd cmap h1 h2 h3 h4
    refine ⟨((extractLoop env fp size cd cmap st []).2,
      (extractLoop env fp size cd cmap st []).1), ?_⟩
    simp [extract_text_from_font, h1, h2, h3, h4]

/-- C2 witness: each fatal phase observed on a concrete environment, in
source order. -/
theorem fatal_soft_boundary_witness :
    extract_text_from_font envOsErr st0 "g" 4 none = .error XErr.fontNotFound
    ∧ extract_text_from_font envOsErr st0 "f" 4 (some "d") = .error XErr.osError
    ∧ extract_text_from_font env5 st0 "f" 4 none = .error XErr.parseError
    ∧ extract_text_from_font envNoOcr st0 "f" 4 none = .error XErr.ocrInitError :=
  ⟨fatal_soft_boundary.1 envOsErr st0 "g" 4 none rfl,
   fatal_soft_boundary.2.1 envOsErr st0 "f" 4 "d" rfl rfl rfl,
   fatal_soft_boundary.2.2.1 env5 st0 "f" 4 none rfl rfl rfl,
   fatal_soft_boundary.2.2.2.1 envNoOcr st0 "f" 4 none [(57345, "uniE001")] rfl rfl rfl rfl⟩

/-- C2 counterexample: with the font present and parsable but a configured
cache directory that is absent and cannot be created, the call raises OSError
— an exception other than the two the claim allows — refuting the claim that
a missing or unparsable font are the only raising conditions. -/
theorem fatal_soft_boundary_cex :
    envOsErr.pathExists "f" = true
    ∧ envOsErr.parseFont "f" = some [(57345, "uniE001")]
    ∧ extract_text_from_font envOsErr st0 "f" 4 (some "d") = .error XErr.osError :=
  ⟨rfl, rfl, rfl⟩

/-! Helper lemmas for the write-once property of the on-disk cache. -/

theorem FS.check_write_mono (fs : FS) (q : FPath) (img : Img) (p : FPath)
    (h : fs.check p = true) : (fs.write q img).check p = true := by
  simp only [FS.check, FS.write, List.any_cons, Bool.or_eq_true] at h ⊢
  tauto

theorem FS.filter_write_ne (fs : FS) (q : FPath) (img : Img) (p : FPath) (hne : ¬q = p) :
    (fs.write q img).written.filter (fun e => e.1 == p)
      = fs.written.filter (fun e => e.1 == p) := by
  simp [FS.write, List.filter_cons, hne]

theorem convert_fs_cases (env : Env) (st : CState) (code : Int) (fp : String) (size : Nat) :
    (convert_cmap_to_image env st code fp size).state.fs = st.fs
    ∨ ∃ img, (convert_cmap_to_image env st code fp size).state.fs
        = st.fs.write (FPath.imgsOut code) img := by
  unfold convert_cmap_to_image
  cases hl : lruLookup st.lru (code, fp, size) with
  | some v => exact Or.inl rfl
  | none =>
      cases hc : convertUncached env code fp size with
      | error e => exact Or.inl rfl
      | ok i => exact Or.inr ⟨i, rfl⟩

theorem entryText_cache_preserve (env : Env) (fp : String) (size : Nat) (cd : Option String)
    (st : CState) (c : Nat) (g : String) (p : FPath)
    (hshape : ∃ dir cc gg, p = FPath.cacheFile dir cc gg)
    (hpre : st.fs.check p = true) :
    (entryText env fp size cd st c g).2.fs.check p = true
    ∧ (entryText env fp size cd st c g).2.fs.written.filter (fun e => e.1 == p)
        = st.fs.written.filter (fun e => e.1 == p) := by
  have hconv : (convert_cmap_to_image env st (c : Int) fp size).state.fs.check p = true
      ∧ (convert_cmap_to_image env st (c : Int) fp size).state.fs.written.filter
            (fun e => e.1 == p)
          = st.fs.written.filter (fun e => e.1 == p) := by
    rcases convert_fs_cases env st (c : Int) fp size with hfs | ⟨i, hfs⟩
    · rw [hfs]
      exact ⟨hpre, rfl⟩
    · rw [hfs]
      obtain ⟨dir, cc, gg, hp⟩ := hshape
      have hne : ¬(FPath.imgsOut (c : Int)) = p := by
        rw [hp]
        simp
      exact ⟨FS.check_write_mono _ _ _ _ hpre, FS.filter_write_ne _ _ _ _ hne⟩
  unfold entryText
  split
  · rename_i a st1 rec heq
    rw [heq] at hconv
    exact hconv
  · rename_i image st1 rec heq
    rw [heq] at hconv
    cases cd with
    | none => cases env.ocrText image <;> exact hconv
    | some dd =>
        dsimp only
        by_cases hr : 0x10FFFF < c
        · rw [if_pos hr]
          exact hconv
        · rw [if_neg hr]
          by_cases hch : st1.fs.check (FPath.cacheFile dd c g) = true
          · rw [if_pos hch]
            cases env.ocrText image <;> exact hconv
          · rw [if_neg hch]
            by_cases hw : env.cacheWriteOk dd c g = true
            · rw [if_pos hw]
              have hne : ¬(FPath.cacheFile dd c g) = p := by
                intro h
                rw [h] at hch
                exact hch hconv.1
              have h1 : (st1.fs.write (FPath.cacheFile dd c g) image).check p = true :=
                FS.check_write_mono _ _ _ _ hconv.1
              have h2 := FS.filter_write_ne st1.fs (FPath.cacheFile dd c g) image p hne
              cases env.ocrText image <;> exact ⟨h1, h2.trans hconv.2⟩
            · rw [if_neg hw]
              exact hconv

theorem extractLoop_cache_preserve (env : Env) (fp : String) (size : Nat)
    (cd : Option String) (cmap : List (Nat × String)) (p : FPath)
    (hshape : ∃ dir cc gg, p = FPath.cacheFile dir cc gg) :
    ∀ (st : CState) (d : List (String × String)), st.fs.check p = true →
      (extractLoop env fp size cd cmap st d).1.fs.check p = true
      ∧ (extractLoop env fp size cd cmap st d).1.fs.written.filter (fun e => e.1 == p)
          = st.fs.written.filter (fun e => e.1 == p) := by
  induction cmap with
  | nil => intro st d hpre; exact ⟨hpre, rfl⟩
  | cons e rest ih =>
      intro st d hpre
      cases e with
      | mk c gl =>
          have hstep := entryText_cache_preserve env fp size cd st c gl p hshape hpre
          simp only [extractLoop]
          have hrec := ih _ (dinsert d gl (entryText env fp size cd st c gl).1) hstep.1
          exact ⟨hrec.1, hrec.2.trans hstep.2⟩

/-- C8: when a cache directory is configured, a cache file that already
exists when extract_text_from_font starts is never written again during the
call: the list of writes to that filename is unchanged.  Together with the
definition of the cache branch — which writes os.path.join(cache_dir,
(ord)_(glyph).png) only under a negative os.path.exists test — this is the
write-once discipline of lines 154-158. -/
theorem cache_write_once (env : Env) (st : CState) (fp : String) (size : Nat)
    (cd : Option String) (d : List (String × String)) (stF : CState)
    (hok : extract_text_from_font env st fp size cd = .ok (d, stF))
    (dir : String) (cc : Nat) (gg : String)
    (hpre : st.fs.check (FPath.cacheFile dir cc gg) = true) :
    stF.fs.written.filter (fun e => e.1 == FPath.cacheFile dir cc gg)
      = st.fs.written.filter (fun e => e.1 == FPath.cacheFile dir cc gg) := by
  unfold extract_text_from_font at hok
  split at hok
  · simp at hok
  split at hok
  · simp at hok
  split at hok
  · simp at hok
  rename_i cmap heq
  split at hok
  · simp at hok
  simp only [Except.ok.injEq, Prod.mk.injEq] at hok
  obtain ⟨hd, hst⟩ := hok
  subst hst
  exact (extractLoop_cache_preserve env fp size cd cmap (FPath.cacheFile dir cc gg)
    ⟨dir, cc, gg, rfl⟩ st [] hpre).2

/-- C8 witness: a concrete run against a filesystem already holding the cache
file of the one processed glyph leaves that file untouched. -/
theorem cache_write_once_witness :
    wStF8.fs.written.filter (fun e => e.1 == FPath.cacheFile "cd" 57345 "uniE001")
      = wSt8.fs.written.filter (fun e => e.1 == FPath.cacheFile "cd" 57345 "uniE001") :=
  cache_write_once envOk wSt8 "f" 4 (some "cd") [("uniE001", "7")] wStF8 rfl
    "cd" 57345 "uniE001" rfl

end FontCrawl
